import Mathlib

/-!
Verification of the conversion core of an Azure Anthropic provider:
prompt/content converters, stop-reason mapping, request-body builder and
the streaming event processor, shallowly embedded from the TypeScript
source.  JavaScript structured values are modelled by an inductive `Json`
type; the JS builtins `JSON.parse` and `JSON.stringify` are external to
the repository and are therefore passed as explicit function parameters
(`parse : String → Option Json`, with `none` for a parse failure, and
`strf : Json → String`).  JS numbers appearing in the option and usage
records are modelled as `Int`: the code only tests their presence and
copies them, never computes with them.
-/

namespace AzureAnthropic

/-- Model of a JS structured (JSON-safe) value. -/
inductive Json where
  | null
  | bool (b : Bool)
  | num (n : Int)
  | str (s : String)
  | arr (elems : List Json)
  | obj (fields : List (String × Json))

/-- Error codes of `AzureAnthropicError` (errors.ts). -/
inductive ErrorCode where
  | validation
  | conversion
deriving DecidableEq

/-- Embedding of the `AzureAnthropicError` class (errors.ts): code,
message, and the optional offending field name. -/
structure AzureAnthropicError where
  code : ErrorCode
  message : String
  field : Option String
deriving DecidableEq

/-- Unified (V3) message roles. -/
inductive V3Role where
  | system
  | user
  | assistant
  | tool
deriving DecidableEq

/-- The two roles a content part can be converted under
(`convertContentForRole`'s `role` parameter). -/
inductive Role2 where
  | user
  | assistant
deriving DecidableEq

/-- Printing of a `Role2`, used in error messages. -/
def role2String : Role2 → String
  | .user => "user"
  | .assistant => "assistant"

/-- File payload: raw bytes (`Uint8Array`, modelled as a byte list) or a
string. -/
inductive FileData where
  | bytes (bs : List Nat)
  | str (s : String)

/-- Tool-call arguments: a JSON-encoded string or a structured value. -/
inductive ToolArgs where
  | str (s : String)
  | json (v : Json)

/-- Unified (V3) content part.  The TS source receives loosely-typed
parts and dispatches on the `type` tag; `other` stands for any
unrecognized tag.  A `toolResult`'s call id is optional because the
source checks its presence (`part.toolCallId` truthiness). -/
inductive V3Part where
  | text (text : String)
  | file (data : FileData) (mediaType : String)
  | toolCall (toolCallId : String) (toolName : String) (args : ToolArgs)
  | toolResult (toolCallId : Option String) (result : Json) (isError : Option Bool)
  | other (tag : String)

/-- Unified message content: bare string or part list. -/
inductive V3Content where
  | str (s : String)
  | parts (ps : List V3Part)

/-- Unified (V3) message. -/
structure V3Message where
  role : V3Role
  content : V3Content

/-- Vendor message roles (`user` and `assistant` only). -/
inductive AnthropicRole where
  | user
  | assistant
deriving DecidableEq

/-- Vendor content block (`IAnthropicContentBlock`). -/
inductive AnthropicContentBlock where
  | text (text : String)
  | image (media_type : String) (data : String)
  | tool_use (id : String) (name : String) (input : Json)
  | tool_result (tool_use_id : String) (content : String) (is_error : Option Bool)

/-- Vendor message content: bare string or block list. -/
inductive AnthropicMsgContent where
  | str (s : String)
  | blocks (bs : List AnthropicContentBlock)

/-- Vendor message. -/
structure AnthropicMessage where
  role : AnthropicRole
  content : AnthropicMsgContent

/-- Result of prompt conversion (`IConvertedPrompt`). -/
structure ConvertedPrompt where
  system : Option String
  messages : List AnthropicMessage

/-- Unified finish reasons (`IV3FinishReason`). -/
inductive V3FinishReason where
  | stop
  | length
  | contentFilter
  | toolCalls
  | error
  | other
deriving DecidableEq

/-- The image media-type allow-list (`SUPPORTED_IMAGE_TYPES`). -/
def SUPPORTED_IMAGE_TYPES : List String :=
  ["image/jpeg", "image/png", "image/gif", "image/webp"]

/-- The base64 alphabet, used to model `Buffer.toString("base64")`. -/
def base64Chars : List Char :=
  "ABCDEFGHIJKLMNOPQRSTUVWXYZabcdefghijklmnopqrstuvwxyz0123456789+/".toList

/-- One base64 output character for a 6-bit value. -/
def base64Char (n : Nat) : Char := base64Chars.getD n 'A'

/-- Standard base64 of a byte list, modelling the JS base64 encoding of a
`Uint8Array` (`Buffer.from(data).toString("base64")`). -/
def base64Encode : List Nat → String
  | [] => ""
  | [b1] =>
      String.mk [base64Char (b1 / 4), base64Char (b1 % 4 * 16)] ++ "=="
  | [b1, b2] =>
      String.mk [base64Char (b1 / 4), base64Char (b1 % 4 * 16 + b2 / 16),
        base64Char (b2 % 16 * 4)] ++ "="
  | b1 :: b2 :: b3 :: rest =>
      String.mk [base64Char (b1 / 4), base64Char (b1 % 4 * 16 + b2 / 16),
        base64Char (b2 % 16 * 4 + b3 / 64), base64Char (b3 % 64)] ++
        base64Encode rest

/-- Source `extractBase64Data`: bytes are base64-encoded; a string starting with
a `data:` URI is stripped up to and including the first comma; any other
string is assumed to already be base64. -/
def extractBase64Data : FileData → String
  | .bytes bs => base64Encode bs
  | .str data =>
      if data.startsWith "data:" then
        match data.splitOn "," with
        | [] => data
        | [_] => data
        | _ :: rest => String.intercalate "," rest
      else data

/-- Source `validateImageMediaType`: allow-list check, failing with a
`conversion` error naming the rejected value (no `field` is passed). -/
def validateImageMediaType (mediaType : String) :
    Except AzureAnthropicError String :=
  if SUPPORTED_IMAGE_TYPES.contains mediaType then .ok mediaType
  else
    .error ⟨.conversion,
      "Unsupported image media type: " ++ mediaType ++ ". Supported: " ++
        String.intercalate ", " SUPPORTED_IMAGE_TYPES,
      none⟩

/-- Source `convertFilePart`: validate the media type, then normalize the
payload to base64. -/
def convertFilePart (data : FileData) (mediaType : String) :
    Except AzureAnthropicError AnthropicContentBlock := do
  let mt ← validateImageMediaType mediaType
  let d := extractBase64Data data
  pure (.image mt d)

/-- Source `convertToolCallPart`: string arguments are parsed best-effort via
the external `parse` (JSON.parse); a parse failure degrades to the empty
object.  Structured arguments pass through. -/
def convertToolCallPart (parse : String → Option Json)
    (toolCallId toolName : String) (args : ToolArgs) : AnthropicContentBlock :=
  let input : Json :=
    match args with
    | .str s =>
        match parse s with
        | some v => v
        | none => Json.obj []
    | .json v => v
  .tool_use toolCallId toolName input

/-- Source `convertContentPart`: dispatch on the part tag, gated by role. -/
def convertContentPart (parse : String → Option Json)
    (part : V3Part) (role : Role2) :
    Except AzureAnthropicError AnthropicContentBlock :=
  match part with
  | .text t => .ok (.text t)
  | .file data mediaType =>
      if role = .user then convertFilePart data mediaType
      else
        .error ⟨.conversion, "Unsupported assistant content part type: file", none⟩
  | .toolCall id name args =>
      if role = .assistant then .ok (convertToolCallPart parse id name args)
      else
        .error ⟨.conversion, "Unsupported user content part type: tool-call", none⟩
  | .toolResult _ _ _ =>
      .error ⟨.conversion,
        "Unsupported " ++ role2String role ++ " content part type: tool-result", none⟩
  | .other tag =>
      .error ⟨.conversion,
        "Unsupported " ++ role2String role ++ " content part type: " ++ tag, none⟩

/-- Source `convertStopReason`: vendor stop reason (nullable string) to unified
finish reason. -/
def convertStopReason (reason : Option String) : V3FinishReason :=
  match reason with
  | some "end_turn" => .stop
  | some "stop_sequence" => .stop
  | some "max_tokens" => .length
  | some "tool_use" => .toolCalls
  | _ => .other

/-- Source `convertContentForRole`: string content passes through; a part list
is converted part by part, and a resulting single text block collapses
to a bare string. -/
def convertContentForRole (parse : String → Option Json)
    (content : V3Content) (role : Role2) :
    Except AzureAnthropicError AnthropicMsgContent :=
  match content with
  | .str s => .ok (.str s)
  | .parts parts => do
      let blocks ← parts.mapM (fun p => convertContentPart parse p role)
      match blocks with
      | [AnthropicContentBlock.text t] => pure (.str t)
      | _ => pure (.blocks blocks)

/-- Source `extractSystemContent`: string content verbatim; otherwise the text
of all text parts joined with newlines. -/
def extractSystemContent (content : V3Content) : String :=
  match content with
  | .str s => s
  | .parts ps =>
      String.intercalate "\n"
        ((ps.filterMap (fun p => match p with
          | .text t => some t
          | _ => none)))

/-- The loop body of `convertToolResultMessage`: a `tool-result` part
with a present, non-empty call id (JS truthiness of `part.toolCallId`)
appends one `tool_result` block — string results pass through, others
are serialized via the external `strf` (JSON.stringify); every other
part leaves the block list unchanged. -/
def toolResultStep (strf : Json → String)
    (blocks : List AnthropicContentBlock) (part : V3Part) :
    List AnthropicContentBlock :=
  match part with
  | .toolResult (some tid) result isError =>
      if tid ≠ "" then
        blocks ++ [AnthropicContentBlock.tool_result tid
          (match result with
           | .str s => s
           | r => strf r) isError]
      else blocks
  | _ => blocks

/-- Source `convertToolResultMessage`: string content degrades to a user
message with that string; otherwise the part loop wraps the produced
`tool_result` blocks into a single user-role message. -/
def convertToolResultMessage (strf : Json → String) (content : V3Content) :
    AnthropicMessage :=
  match content with
  | .str s => ⟨.user, .str s⟩
  | .parts parts => ⟨.user, .blocks (parts.foldl (toolResultStep strf) [])⟩

/-- Source `normalizeContent`: a bare string becomes a single text block. -/
def normalizeContent : AnthropicMsgContent → List AnthropicContentBlock
  | .str s => [.text s]
  | .blocks bs => bs

/-- One step of `mergeConsecutiveMessages`: merge the incoming message
into the last accumulated one when the roles are equal. -/
def mergeStep (merged : List AnthropicMessage) (message : AnthropicMessage) :
    List AnthropicMessage :=
  match merged.getLast? with
  | some lastMessage =>
      if lastMessage.role = message.role then
        merged.dropLast ++
          [⟨message.role,
            .blocks (normalizeContent lastMessage.content ++
              normalizeContent message.content)⟩]
      else merged ++ [message]
  | none => merged ++ [message]

/-- Source `mergeConsecutiveMessages`: left-to-right merge of adjacent vendor
messages sharing a role. -/
def mergeConsecutiveMessages (messages : List AnthropicMessage) :
    List AnthropicMessage :=
  messages.foldl mergeStep []

/-- One iteration of the message-dispatch loop of `convertPrompt`: a
system message overwrites the extracted system slot (last one wins);
user/assistant messages convert their content role-gated; tool messages
become user-role tool-result messages. -/
def convertPromptStep (parse : String → Option Json) (strf : Json → String)
    (acc : Option String × List AnthropicMessage) (message : V3Message) :
    Except AzureAnthropicError (Option String × List AnthropicMessage) :=
  match message.role with
  | .system => pure (some (extractSystemContent message.content), acc.2)
  | .user => do
      let c ← convertContentForRole parse message.content .user
      pure (acc.1, acc.2 ++ [⟨AnthropicRole.user, c⟩])
  | .assistant => do
      let c ← convertContentForRole parse message.content .assistant
      pure (acc.1, acc.2 ++ [⟨AnthropicRole.assistant, c⟩])
  | .tool =>
      pure (acc.1, acc.2 ++ [convertToolResultMessage strf message.content])

/-- The message-dispatch loop of `convertPrompt`, before the merge step:
produces the extracted system text (last system message wins) and the
raw vendor message list. -/
def convertPromptLoop (parse : String → Option Json) (strf : Json → String)
    (prompt : List V3Message) :
    Except AzureAnthropicError (Option String × List AnthropicMessage) :=
  prompt.foldlM (convertPromptStep parse strf) (none, [])

/-- Source `convertPrompt`: dispatch loop followed by the adjacent-role merge. -/
def convertPrompt (parse : String → Option Json) (strf : Json → String)
    (prompt : List V3Message) : Except AzureAnthropicError ConvertedPrompt := do
  let (system, messages) ← convertPromptLoop parse strf prompt
  pure ⟨system, mergeConsecutiveMessages messages⟩

/-- Unified response content part (`IV3Content`). -/
inductive V3OutContent where
  | text (text : String)
  | toolCall (toolCallId : String) (toolName : String) (args : String)

/-- Response content block (`IAnthropicResponseContentBlock`). -/
inductive AnthropicResponseBlock where
  | text (text : String)
  | tool_use (id : String) (name : String) (input : Json)

/-- Source `convertContent` (response side): text blocks pass through; tool_use
blocks become tool-call parts with arguments serialized via `strf`
(JSON.stringify). -/
def convertContent (strf : Json → String)
    (content : List AnthropicResponseBlock) : List V3OutContent :=
  content.map (fun block =>
    match block with
    | .text t => .text t
    | .tool_use id name input => .toolCall id name (strf input))

/-- Tool definitions: a V3 tool is a function tool or some other
(provider-defined) kind, filtered out before conversion. -/
inductive V3Tool where
  | function (name : String) (description : Option String) (inputSchema : Json)
  | other

/-- Vendor tool definition (`IAnthropicTool`). -/
structure AnthropicTool where
  name : String
  input_schema : Json
  description : Option String

/-- Source `convertTools`: map function tools to vendor tools; the description
is attached only when present. -/
def convertTools (tools : List (String × Option String × Json)) :
    List AnthropicTool :=
  tools.map (fun t => ⟨t.1, t.2.2, t.2.1⟩)

/-- V3 tool-choice policies (`LanguageModelV3ToolChoice`). -/
inductive V3ToolChoice where
  | auto
  | none
  | required
  | tool (toolName : String)

/-- Vendor tool choice (`IAnthropicToolChoice`). -/
structure AnthropicToolChoice where
  type : String
  name : Option String
deriving DecidableEq

/-- Source `convertToolChoice`: `none` has no vendor counterpart and falls back
to `auto`; `required` becomes `any`. -/
def convertToolChoice : V3ToolChoice → AnthropicToolChoice
  | .auto => ⟨"auto", Option.none⟩
  | .none => ⟨"auto", Option.none⟩
  | .required => ⟨"any", Option.none⟩
  | .tool name => ⟨"tool", some name⟩

/-- Caller inputs consumed by `buildRequestBody`
(`LanguageModelV3CallOptions`, restricted to the fields the builder
reads). -/
structure CallOptions where
  prompt : List V3Message
  maxOutputTokens : Option Int
  temperature : Option Int
  topP : Option Int
  topK : Option Int
  stopSequences : Option (List String)
  tools : Option (List V3Tool)
  toolChoice : Option V3ToolChoice

/-- Model-level options (`IAzureAnthropicModelOptions`). -/
structure ModelOptions where
  maxOutputTokens : Option Int

/-- The rendered vendor request body; `none` in an optional field means
the key is absent from the rendered object. -/
structure RequestBody where
  model : String
  max_tokens : Int
  messages : List AnthropicMessage
  stream : Option Bool
  system : Option String
  temperature : Option Int
  top_p : Option Int
  top_k : Option Int
  stop_sequences : Option (List String)
  tools : Option (List AnthropicTool)
  tool_choice : Option AnthropicToolChoice

/-- Source `buildRequestBody` (model.ts): renders the vendor request body.  The
conditional spreads of the source become `Option` fields; JS truthiness
makes an empty `system` string fall out, while a supplied empty
`stopSequences` array is truthy and is kept. -/
def buildRequestBody (parse : String → Option Json) (strf : Json → String)
    (modelId : String) (modelOptions : ModelOptions)
    (options : CallOptions) (isStreaming : Bool) :
    Except AzureAnthropicError RequestBody := do
  let convertedPrompt ← convertPrompt parse strf options.prompt
  let functionTools := options.tools.map (fun ts =>
    ts.filterMap (fun t => match t with
      | .function n d s => some (n, d, s)
      | .other => none))
  let anthropicTools : Option (List AnthropicTool) :=
    match functionTools with
    | some fts => if fts.length > 0 then some (convertTools fts) else none
    | none => none
  let anthropicToolChoice := options.toolChoice.map convertToolChoice
  let maxTokens :=
    match options.maxOutputTokens with
    | some n => n
    | none =>
        match modelOptions.maxOutputTokens with
        | some n => n
        | none => 4096
  pure {
    model := modelId
    max_tokens := maxTokens
    messages := convertedPrompt.messages
    stream := if isStreaming then some true else none
    system :=
      match convertedPrompt.system with
      | some s => if s = "" then none else some s
      | none => none
    temperature := options.temperature
    top_p := options.topP
    top_k := options.topK
    stop_sequences := options.stopSequences
    tools :=
      match anthropicTools with
      | some ts => if ts.length > 0 then some ts else none
      | none => none
    tool_choice := anthropicToolChoice
  }

/-- Truthiness of an optional JS string: present and non-empty. -/
def strTruthy : Option String → Bool
  | some s => s != ""
  | none => false

/-- The `content_block` payload of a `content_block_start` event. -/
structure RawBlock where
  type : String
  id : Option String
  name : Option String

/-- The `delta` payload of a `content_block_delta` event. -/
structure RawDelta where
  type : String
  text : Option String
  partial_json : Option String

/-- Vendor streaming events (`IAnthropicStreamEvent`), reduced to the
fields the processor reads.  In `message_delta` the stop reason is
doubly optional: the outer `Option` is JS `undefined`, the inner one is
JS `null`. -/
inductive StreamEvent where
  | message_start (input_tokens : Option Int)
  | content_block_start (index : Nat) (block : RawBlock)
  | content_block_delta (index : Nat) (delta : RawDelta)
  | content_block_stop (index : Nat)
  | message_delta (stop_reason : Option (Option String)) (output_tokens : Option Int)

/-- An in-progress tool-call accumulator. -/
structure ToolAcc where
  id : String
  name : String
  argsText : String

/-- The processor's per-stream state (`StreamState`): the tool-call
accumulator map (a JS `Map`, modelled as an association list), the set
of opened text-block indices, usage counters and last raw stop
reason. -/
structure StreamState where
  toolCalls : List (Nat × ToolAcc)
  textBlockIds : List Nat
  inputTokens : Int
  outputTokens : Int
  finishReasonRaw : String

/-- Model of `Map.get`: association-list lookup. -/
def mapGet (m : List (Nat × ToolAcc)) (k : Nat) : Option ToolAcc :=
  (m.find? (fun kv => kv.1 == k)).map (fun kv => kv.2)

/-- Model of `Map.set`: replace in place when present, else append. -/
def mapSet (m : List (Nat × ToolAcc)) (k : Nat) (v : ToolAcc) :
    List (Nat × ToolAcc) :=
  if m.any (fun kv => kv.1 == k) then
    m.map (fun kv => if kv.1 == k then (k, v) else kv)
  else m ++ [(k, v)]

/-- Model of `Map.delete`: drop the binding. -/
def mapDelete (m : List (Nat × ToolAcc)) (k : Nat) : List (Nat × ToolAcc) :=
  m.filter (fun kv => kv.1 != k)

/-- Model of `Set.add` on the opened-text-block index set. -/
def setAdd (s : List Nat) (i : Nat) : List Nat :=
  if s.contains i then s else s ++ [i]

/-- Unified stream parts (`LanguageModelV3StreamPart`), reduced to the
fields the processor writes; `ε` is the type of the fault carried by an
`error` part. -/
inductive StreamPart (ε : Type) where
  | streamStart
  | textStart (id : String)
  | textDelta (id : String) (delta : String)
  | textEnd (id : String)
  | toolCall (toolCallId : String) (toolName : String) (input : String)
  | finish (unified : V3FinishReason) (raw : String)
      (inputTokens : Int) (outputTokens : Int)
  | error (err : ε)

/-- Whether a stream part is the terminal `finish` part. -/
def StreamPart.isFinish {ε : Type} : StreamPart ε → Bool
  | .finish _ _ _ _ => true
  | _ => false

/-- Source `processStreamEvent`: one vendor event to the emitted unified parts
and the updated state. -/
def processStreamEvent (ε : Type) (event : StreamEvent) (state : StreamState) :
    List (StreamPart ε) × StreamState :=
  match event with
  | .message_start inputTokens =>
      ([],
       match inputTokens with
       | some n => { state with inputTokens := n }
       | none => state)
  | .content_block_start index block =>
      let (parts, state) :=
        if block.type == "text" then
          ([StreamPart.textStart ("text-" ++ toString index)],
           { state with textBlockIds := setAdd state.textBlockIds index })
        else ([], state)
      let state :=
        if block.type == "tool_use" ∧ strTruthy block.id ∧ strTruthy block.name then
          let tc : ToolAcc := ⟨block.id.getD "", block.name.getD "", ""⟩
          { state with toolCalls := mapSet state.toolCalls index tc }
        else state
      (parts, state)
  | .content_block_delta index delta =>
      let (parts, state) :=
        if delta.type == "text_delta" then
          match delta.text with
          | some t =>
              let id := "text-" ++ toString index
              if state.textBlockIds.contains index then
                ([StreamPart.textDelta id t], state)
              else
                ([StreamPart.textStart id, StreamPart.textDelta id t],
                 { state with textBlockIds := setAdd state.textBlockIds index })
          | none => ([], state)
        else ([], state)
      let state :=
        if delta.type == "input_json_delta" ∧ strTruthy delta.partial_json then
          match mapGet state.toolCalls index with
          | some acc =>
              let acc2 : ToolAcc :=
                { acc with argsText := acc.argsText ++ delta.partial_json.getD "" }
              { state with toolCalls := mapSet state.toolCalls index acc2 }
          | none => state
        else state
      (parts, state)
  | .content_block_stop index =>
      let textParts : List (StreamPart ε) :=
        if state.textBlockIds.contains index then
          [StreamPart.textEnd ("text-" ++ toString index)]
        else []
      match mapGet state.toolCalls index with
      | some tc =>
          (textParts ++
            [StreamPart.toolCall tc.id tc.name
              (if tc.argsText == "" then "\x7b\x7d" else tc.argsText)],
           { state with toolCalls := mapDelete state.toolCalls index })
      | none => (textParts, state)
  | .message_delta stopReason outputTokens =>
      let state :=
        match outputTokens with
        | some n => { state with outputTokens := n }
        | none => state
      let state :=
        match stopReason with
        | some (some r) => { state with finishReasonRaw := r }
        | _ => state
      ([], state)

/-- The event loop's accumulated view: processor state, whether
`stream-start` has been emitted, and the parts enqueued so far. -/
structure LoopState (ε : Type) where
  state : StreamState
  started : Bool
  out : List (StreamPart ε)

/-- One iteration of the consumption loop: lazily emit `stream-start` on
the first event, then process the event. -/
def stepEvent (ε : Type) (ls : LoopState ε) (event : StreamEvent) : LoopState ε :=
  let startParts : List (StreamPart ε) :=
    if ls.started then [] else [StreamPart.streamStart]
  let (parts, state) := processStreamEvent ε event ls.state
  ⟨state, true, ls.out ++ startParts ++ parts⟩

/-- The fresh state created at stream start. -/
def initState : StreamState := ⟨[], [], 0, 0, "other"⟩

/-- Run the consumption loop over a list of vendor events. -/
def runEvents (ε : Type) (events : List StreamEvent) : LoopState ε :=
  events.foldl (stepEvent ε) ⟨initState, false, []⟩

/-- The terminal `finish` part assembled from the final state. -/
def finishPart (ε : Type) (state : StreamState) : StreamPart ε :=
  .finish (convertStopReason (some state.finishReasonRaw)) state.finishReasonRaw
    state.inputTokens state.outputTokens

/-- A stream-processing input: either a finite event sequence that
completes normally, or one that delivers a prefix of events and then
raises a fault of type `ε`. -/
inductive StreamInput (ε : Type) where
  | ok (events : List StreamEvent)
  | fault (events : List StreamEvent) (err : ε)

/-- Source `processStream`: the full output sequence of the processor.  Normal
completion appends the terminal `finish` part; a source fault appends an
`error` part instead (the try/catch around the consumption loop). -/
def processStream (ε : Type) (input : StreamInput ε) : List (StreamPart ε) :=
  match input with
  | .ok events =>
      let ls := runEvents ε events
      ls.out ++ [finishPart ε ls.state]
  | .fault events err =>
      let ls := runEvents ε events
      ls.out ++ [.error err]

/-- A trivial stand-in for the external JSON parser, used to instantiate
parametric theorems at concrete inputs. -/
def parse0 : String → Option Json := fun _ => none

/-- A trivial stand-in for the external JSON serializer, used to
instantiate parametric theorems at concrete inputs. -/
def strf0 : Json → String := fun _ => "null"

/-- C3: the empty vendor event sequence produces exactly one unified
event: a `finish` carrying the unified reason mapped from the default
raw sentinel `"other"` and zero input/output usage, and no
`stream-start` is emitted. -/
theorem claim_C3_empty_stream (ε : Type) :
    processStream ε (.ok []) =
      [StreamPart.finish (convertStopReason (some "other")) "other" 0 0] := rfl

/-- C6: the stop-reason mapping is total and deterministic: `end_turn`
and `stop_sequence` map to `stop`, `max_tokens` to `length`, `tool_use`
to `tool-calls`, and every other input — `null` included — to
`other`. -/
theorem claim_C6_stop_reason_mapping :
    convertStopReason (some "end_turn") = .stop ∧
    convertStopReason (some "stop_sequence") = .stop ∧
    convertStopReason (some "max_tokens") = .length ∧
    convertStopReason (some "tool_use") = .toolCalls ∧
    convertStopReason none = .other ∧
    ∀ s : String, s ≠ "end_turn" → s ≠ "stop_sequence" → s ≠ "max_tokens" →
      s ≠ "tool_use" → convertStopReason (some s) = .other := by
  refine ⟨rfl, rfl, rfl, rfl, rfl, ?_⟩
  intro s h1 h2 h3 h4
  unfold convertStopReason
  split
  · rename_i heq; cases heq; exact absurd rfl h1
  · rename_i heq; cases heq; exact absurd rfl h2
  · rename_i heq; cases heq; exact absurd rfl h3
  · rename_i heq; cases heq; exact absurd rfl h4
  · rfl

/-- Witness for C6 at the unrecognized reason `"banana"`. -/
theorem claim_C6_witness : convertStopReason (some "banana") = .other :=
  claim_C6_stop_reason_mapping.2.2.2.2.2 "banana" (by decide) (by decide)
    (by decide) (by decide)

/-- C8: converting an assistant tool-call part whose arguments are a
string never fails: the parsed value becomes the `tool_use` input, and a
parse failure degrades to the empty object. -/
theorem claim_C8_tool_args_best_effort (parse : String → Option Json)
    (id name s : String) :
    convertContentPart parse (.toolCall id name (.str s)) .assistant =
      .ok (.tool_use id name ((parse s).getD (Json.obj []))) := by
  unfold convertContentPart convertToolCallPart
  cases h : parse s <;> simp [h, Option.getD]

/-- The error produced for the unsupported media type `image/bmp`. -/
def c7Error : AzureAnthropicError :=
  ⟨.conversion,
    "Unsupported image media type: image/bmp. Supported: image/jpeg, image/png, image/gif, image/webp",
    none⟩

/-- C7 counterexample: converting a user file part with media type
`image/bmp` fails with a Conversion error naming the rejected value, but
the error's `field` is `none`, not `mediaType` — the source never passes
the third constructor argument. -/
theorem claim_C7_counterexample :
    convertContentPart parse0 (.file (.str "QUJD") "image/bmp") .user =
      .error c7Error ∧ c7Error.field ≠ some "mediaType" :=
  ⟨rfl, by decide⟩

/-- C7 amended: for every media type outside the allow-list, converting
a user file part fails with a Conversion error whose message names the
rejected value; the error carries no field name. -/
theorem claim_C7_media_type_error (parse : String → Option Json)
    (data : FileData) (mt : String) (h : mt ∉ SUPPORTED_IMAGE_TYPES) :
    convertContentPart parse (.file data mt) .user =
      .error ⟨.conversion,
        "Unsupported image media type: " ++ mt ++ ". Supported: " ++
          String.intercalate ", " SUPPORTED_IMAGE_TYPES,
        none⟩ := by
  simp [convertContentPart, convertFilePart, validateImageMediaType, h,
    Except.map, Functor.map, Bind.bind, Except.bind]

/-- Witness for C7's amended theorem at `image/tiff`. -/
theorem claim_C7_witness :
    convertContentPart parse0 (.file (.bytes [1, 2, 3]) "image/tiff") .user =
      .error ⟨.conversion,
        "Unsupported image media type: image/tiff. Supported: " ++
          String.intercalate ", " SUPPORTED_IMAGE_TYPES,
        none⟩ :=
  claim_C7_media_type_error parse0 (.bytes [1, 2, 3]) "image/tiff" (by decide)

/-- Length preservation of `mapM` over `Except`. -/
theorem mapM_except_length {α β γ : Type} (f : α → Except γ β) :
    ∀ (l : List α) (bs : List β), l.mapM f = .ok bs → bs.length = l.length := by
  intro l
  induction l with
  | nil =>
      intro bs h
      simp only [List.mapM_nil, pure] at h
      cases h
      rfl
  | cons x xs ih =>
      intro bs h
      rw [List.mapM_cons] at h
      cases hx : f x with
      | error e => rw [hx] at h; simp [Bind.bind, Except.bind] at h
      | ok y =>
          rw [hx] at h
          cases hxs : xs.mapM f with
          | error e =>
              rw [hxs] at h; simp [Bind.bind, Except.bind, pure] at h
          | ok ys =>
              rw [hxs] at h
              simp [Bind.bind, Except.bind, pure, Except.pure] at h
              cases h
              simp [ih ys hxs]

/-- C5: when part-list conversion for a user/assistant role succeeds, a
single resulting text block collapses to bare string content, any other
outcome keeps the block list, and the block count always equals the
input part count. -/
theorem claim_C5_single_text_simplification (parse : String → Option Json)
    (role : Role2) (parts : List V3Part) (blocks : List AnthropicContentBlock)
    (h : parts.mapM (fun p => convertContentPart parse p role) = .ok blocks) :
    (∀ t, blocks = [AnthropicContentBlock.text t] →
      convertContentForRole parse (.parts parts) role = .ok (.str t)) ∧
    ((∀ t, blocks ≠ [AnthropicContentBlock.text t]) →
      convertContentForRole parse (.parts parts) role = .ok (.blocks blocks)) ∧
    blocks.length = parts.length := by
  refine ⟨?_, ?_, mapM_except_length _ parts blocks h⟩
  · intro t ht
    subst ht
    simp only [convertContentForRole]
    rw [h]
    rfl
  · intro hne
    match blocks, h, hne with
    | [], h, _ =>
        simp only [convertContentForRole]; rw [h]; rfl
    | [AnthropicContentBlock.text t], h, hne =>
        exact absurd rfl (hne t)
    | [AnthropicContentBlock.image m d], h, _ =>
        simp only [convertContentForRole]; rw [h]; rfl
    | [AnthropicContentBlock.tool_use i n inp], h, _ =>
        simp only [convertContentForRole]; rw [h]; rfl
    | [AnthropicContentBlock.tool_result i c e], h, _ =>
        simp only [convertContentForRole]; rw [h]; rfl
    | b1 :: b2 :: bs, h, _ =>
        simp only [convertContentForRole]; rw [h]; cases b1 <;> rfl

/-- Witness for C5 on a two-text-part message: no collapse, and the
block count matches the part count. -/
theorem claim_C5_witness :
    ([V3Part.text "a", V3Part.text "b"].mapM
        (fun p => convertContentPart parse0 p .user) =
      .ok [AnthropicContentBlock.text "a", AnthropicContentBlock.text "b"]) ∧
    convertContentForRole parse0 (.parts [V3Part.text "a", V3Part.text "b"]) .user =
      .ok (.blocks [AnthropicContentBlock.text "a", AnthropicContentBlock.text "b"]) :=
  ⟨rfl,
    (claim_C5_single_text_simplification parse0 .user
      [V3Part.text "a", V3Part.text "b"]
      [AnthropicContentBlock.text "a", AnthropicContentBlock.text "b"] rfl).2.1
      (by intro t; simp)⟩

/-- Whether a part produces a `tool_result` block in a tool message: a
`tool-result` part with present, non-empty call id produces one block,
everything else is skipped. -/
def toolResultBlockOf (strf : Json → String) : V3Part → Option AnthropicContentBlock
  | .toolResult (some tid) result isError =>
      if tid ≠ "" then
        some (.tool_result tid
          (match result with
           | .str s => s
           | r => strf r) isError)
      else none
  | _ => none

/-- The tool-message loop collects exactly the blocks of
`toolResultBlockOf`, in order. -/
theorem toolResultFold (strf : Json → String) :
    ∀ (parts : List V3Part) (acc : List AnthropicContentBlock),
      parts.foldl (toolResultStep strf) acc =
        acc ++ parts.filterMap (toolResultBlockOf strf) := by
  intro parts
  induction parts with
  | nil => intro acc; simp
  | cons p ps ih =>
      intro acc
      rw [List.foldl_cons, ih]
      cases p with
      | toolResult oid result isError =>
          cases oid with
          | some tid =>
              by_cases htid : tid = ""
              · subst htid
                simp [toolResultStep, toolResultBlockOf]
              · simp [toolResultStep, toolResultBlockOf, htid]
          | none => simp [toolResultStep, toolResultBlockOf]
      | text t => simp [toolResultStep, toolResultBlockOf]
      | file d m => simp [toolResultStep, toolResultBlockOf]
      | toolCall i n a => simp [toolResultStep, toolResultBlockOf]
      | other tag => simp [toolResultStep, toolResultBlockOf]

/-- C10: in a tool-role message with part-list content, parts that are
not `tool-result` or lack a (truthy) call id are silently skipped — the
message converts without error to a user message holding exactly the
blocks of the kept parts — and a message all of whose parts are skipped
yields a user message with the empty block list. -/
theorem claim_C10_tool_message_skipping (strf : Json → String)
    (parts : List V3Part) :
    convertToolResultMessage strf (.parts parts) =
      ⟨.user, .blocks (parts.filterMap (toolResultBlockOf strf))⟩ ∧
    (∀ res err, toolResultBlockOf strf (.toolResult none res err) = none) ∧
    (∀ t, toolResultBlockOf strf (.text t) = none) ∧
    ((∀ p ∈ parts, toolResultBlockOf strf p = none) →
      convertToolResultMessage strf (.parts parts) = ⟨.user, .blocks []⟩) := by
  have hfold : convertToolResultMessage strf (.parts parts) =
      ⟨.user, .blocks (parts.filterMap (toolResultBlockOf strf))⟩ := by
    simp [convertToolResultMessage, toolResultFold strf parts []]
  refine ⟨hfold, fun res err => rfl, fun t => rfl, fun hall => ?_⟩
  rw [hfold, List.filterMap_eq_nil_iff.mpr hall]

/-- Witness for C10: a tool message holding a text part and an id-less
tool-result part converts to a user message with empty block content. -/
theorem claim_C10_witness :
    convertToolResultMessage strf0
      (.parts [V3Part.text "x", V3Part.toolResult none Json.null none]) =
      ⟨.user, .blocks []⟩ :=
  (claim_C10_tool_message_skipping strf0
    [V3Part.text "x", V3Part.toolResult none Json.null none]).2.2.2
    (by
      intro p hp
      simp only [List.mem_cons, List.not_mem_nil, or_false] at hp
      rcases hp with rfl | rfl <;> rfl)

/-- Folding string concatenation distributes over `String.join`. -/
theorem foldl_append_join :
    ∀ (l : List String) (a : String),
      l.foldl (fun r s => r ++ s) a = a ++ String.join l := by
  intro l
  induction l with
  | nil =>
      intro a
      show a = a ++ String.join []
      rw [show String.join [] = "" from rfl, String.append_empty]
  | cons s rest ih =>
      intro a
      have h1 : String.join (s :: rest) = s ++ String.join rest := by
        show (s :: rest).foldl (fun r s => r ++ s) "" = s ++ String.join rest
        rw [List.foldl_cons, ih]
        rfl
      rw [List.foldl_cons, ih, h1, String.append_assoc]

/-- Lemma: `String.join` unfolds one element at a time. -/
theorem stringJoin_cons (s : String) (l : List String) :
    String.join (s :: l) = s ++ String.join l := by
  show (s :: l).foldl (fun r s => r ++ s) "" = s ++ String.join l
  rw [List.foldl_cons, foldl_append_join]
  rfl

/-- The vendor delta event carrying one JSON argument fragment. -/
def jsonDeltaEvent (idx : Nat) (s : String) : StreamEvent :=
  .content_block_delta idx ⟨"input_json_delta", none, some s⟩

/-- Running the loop over JSON-fragment deltas for the only open
accumulator appends the joined fragments to its argument text and emits
nothing. -/
theorem fold_json_deltas (ε : Type) (idx : Nat) (id name : String)
    (frags : List String) :
    ∀ (acc : String) (out : List (StreamPart ε)) (ti : List Nat)
      (it ot : Int) (fr : String),
      List.foldl (stepEvent ε)
        ⟨⟨[(idx, ⟨id, name, acc⟩)], ti, it, ot, fr⟩, true, out⟩
        (frags.map (jsonDeltaEvent idx)) =
      ⟨⟨[(idx, ⟨id, name, acc ++ String.join frags⟩)], ti, it, ot, fr⟩, true, out⟩ := by
  induction frags with
  | nil =>
      intro acc out ti it ot fr
      simp [String.join, String.append_empty]
  | cons s rest ih =>
      intro acc out ti it ot fr
      rw [List.map_cons, List.foldl_cons]
      have hstep :
          stepEvent ε ⟨⟨[(idx, ⟨id, name, acc⟩)], ti, it, ot, fr⟩, true, out⟩
            (jsonDeltaEvent idx s) =
          ⟨⟨[(idx, ⟨id, name, acc ++ s⟩)], ti, it, ot, fr⟩, true, out⟩ := by
        by_cases hs : s = ""
        · subst hs
          simp [stepEvent, jsonDeltaEvent, processStreamEvent, strTruthy,
            String.append_empty]
        · simp [stepEvent, jsonDeltaEvent, processStreamEvent, strTruthy, hs,
            mapGet, mapSet, Option.getD]
      rw [hstep, ih, stringJoin_cons, String.append_assoc]

/-- Unfolding of `processStream` on a normally completing input. -/
theorem processStream_ok (ε : Type) (events : List StreamEvent) :
    processStream ε (.ok events) =
      (runEvents ε events).out ++ [finishPart ε (runEvents ε events).state] := rfl

/-- Unfolding of `processStream` on a faulting input. -/
theorem processStream_fault (ε : Type) (events : List StreamEvent) (err : ε) :
    processStream ε (.fault events err) =
      (runEvents ε events).out ++ [StreamPart.error err] := rfl

/-- C2: a stream that opens a `tool_use` block (with truthy id and
name), delivers any sequence of JSON argument fragments for that index,
and closes the block, yields exactly one `tool-call` event carrying the
opening id and name and the fragments joined in arrival order — or the
placeholder object when nothing was accumulated. -/
theorem claim_C2_tool_call_assembly (ε : Type) (idx : Nat) (id name : String)
    (frags : List String) (hid : id ≠ "") (hname : name ≠ "") :
    processStream ε (.ok
      (StreamEvent.content_block_start idx ⟨"tool_use", some id, some name⟩ ::
        (frags.map (jsonDeltaEvent idx) ++ [StreamEvent.content_block_stop idx]))) =
    [StreamPart.streamStart,
     StreamPart.toolCall id name
       (if String.join frags = "" then "\x7b\x7d" else String.join frags),
     StreamPart.finish .other "other" 0 0] := by
  rw [processStream_ok]
  unfold runEvents
  rw [List.foldl_cons]
  have hstart :
      stepEvent ε ⟨initState, false, []⟩
        (.content_block_start idx ⟨"tool_use", some id, some name⟩) =
      ⟨⟨[(idx, ⟨id, name, ""⟩)], [], 0, 0, "other"⟩, true, [StreamPart.streamStart]⟩ := by
    simp [stepEvent, processStreamEvent, initState, strTruthy, hid, hname,
      mapSet, setAdd, Option.getD]
  rw [hstart, List.foldl_append, fold_json_deltas]
  rw [show ("" ++ String.join frags) = String.join frags from rfl]
  have hstop :
      stepEvent ε
        ⟨⟨[(idx, ⟨id, name, String.join frags⟩)], [], 0, 0, "other"⟩, true,
          [StreamPart.streamStart]⟩
        (.content_block_stop idx) =
      ⟨⟨[], [], 0, 0, "other"⟩, true,
        [StreamPart.streamStart,
         StreamPart.toolCall id name
           (if String.join frags = "" then "\x7b\x7d" else String.join frags)]⟩ := by
    simp [stepEvent, processStreamEvent, mapGet, mapDelete, beq_iff_eq]
  rw [List.foldl_cons, hstop]
  simp [finishPart, convertStopReason]

/-- Witness for C2 at the two-fragment weather example. -/
theorem claim_C2_witness :
    processStream Unit (.ok
      (StreamEvent.content_block_start 0 ⟨"tool_use", some "call_123", some "get_weather"⟩ ::
        (["\x7b\"loc", "ation\":\"NYC\"\x7d"].map (jsonDeltaEvent 0) ++
          [StreamEvent.content_block_stop 0]))) =
    [StreamPart.streamStart,
     StreamPart.toolCall "call_123" "get_weather"
       (if String.join ["\x7b\"loc", "ation\":\"NYC\"\x7d"] = "" then "\x7b\x7d"
        else String.join ["\x7b\"loc", "ation\":\"NYC\"\x7d"]),
     StreamPart.finish .other "other" 0 0] :=
  claim_C2_tool_call_assembly Unit 0 "call_123" "get_weather"
    ["\x7b\"loc", "ation\":\"NYC\"\x7d"] (by decide) (by decide)

/-- One vendor event never contributes a `finish` part: only loop
termination emits it. -/
theorem processStreamEvent_no_finish (ε : Type) (event : StreamEvent)
    (state : StreamState) :
    ((processStreamEvent ε event state).1.all (fun p => !p.isFinish)) = true := by
  cases event <;>
    simp only [processStreamEvent] <;>
    (repeat' split) <;>
    simp [StreamPart.isFinish, List.all_append]

/-- The consumption loop never enqueues a `finish` part. -/
theorem runEvents_no_finish (ε : Type) (events : List StreamEvent) :
    ((runEvents ε events).out.all (fun p => !p.isFinish)) = true := by
  have key : ∀ (ls : LoopState ε), (ls.out.all (fun p => !p.isFinish)) = true →
      (((events.foldl (stepEvent ε) ls).out.all (fun p => !p.isFinish))) = true := by
    induction events with
    | nil => intro ls h; simpa using h
    | cons e rest ih =>
        intro ls h
        rw [List.foldl_cons]
        refine ih _ ?_
        simp only [stepEvent, List.all_append, Bool.and_eq_true]
        refine And.intro (And.intro h ?_) ?_
        · cases hls : ls.started <;> simp [StreamPart.isFinish]
        · exact processStreamEvent_no_finish ε e ls.state
  exact key ⟨initState, false, []⟩ rfl

/-- C4: when the event source faults after a prefix of events, the
processor delivers every part already produced unchanged, then exactly
one `error` part in place of the terminal `finish`, and the resulting
sequence contains no `finish` part at all. -/
theorem claim_C4_fault_replaces_finish (ε : Type) (events : List StreamEvent)
    (err : ε) :
    processStream ε (.fault events err) =
      (processStream ε (.ok events)).dropLast ++ [StreamPart.error err] ∧
    ((processStream ε (.fault events err)).all (fun p => !p.isFinish)) = true := by
  constructor
  · rw [processStream_fault, processStream_ok, List.dropLast_concat]
  · rw [processStream_fault, List.all_append, Bool.and_eq_true]
    exact And.intro (runEvents_no_finish ε events) rfl

/-- A prompt without system messages leaves the system slot unchanged
through the dispatch loop. -/
theorem foldlM_no_system (parse : String → Option Json) (strf : Json → String) :
    ∀ (prompt : List V3Message) (acc res : Option String × List AnthropicMessage),
      (∀ m ∈ prompt, m.role ≠ .system) →
      prompt.foldlM (convertPromptStep parse strf) acc = .ok res →
      res.1 = acc.1 := by
  intro prompt
  induction prompt with
  | nil =>
      intro acc res _ h
      simp only [List.foldlM_nil, pure, Except.pure] at h
      cases h
      rfl
  | cons m rest ih =>
      intro acc res hall h
      rw [List.foldlM_cons] at h
      have hm : m.role ≠ .system := hall m (List.mem_cons_self m rest)
      have hrest : ∀ x ∈ rest, x.role ≠ .system :=
        fun x hx => hall x (List.mem_cons_of_mem m hx)
      cases hstep : convertPromptStep parse strf acc m with
      | error e =>
          rw [hstep] at h
          simp [Bind.bind, Except.bind] at h
      | ok acc2 =>
          rw [hstep] at h
          simp only [Bind.bind, Except.bind] at h
          have h1 : acc2.1 = acc.1 := by
            unfold convertPromptStep at hstep
            cases hrole : m.role with
            | system => exact absurd hrole hm
            | user =>
                rw [hrole] at hstep
                cases hc : convertContentForRole parse m.content .user with
                | error e => rw [hc] at hstep; simp [Bind.bind, Except.bind] at hstep
                | ok c =>
                    rw [hc] at hstep
                    simp only [Bind.bind, Except.bind, pure, Except.pure] at hstep
                    cases hstep
                    rfl
            | assistant =>
                rw [hrole] at hstep
                cases hc : convertContentForRole parse m.content .assistant with
                | error e => rw [hc] at hstep; simp [Bind.bind, Except.bind] at hstep
                | ok c =>
                    rw [hc] at hstep
                    simp only [Bind.bind, Except.bind, pure, Except.pure] at hstep
                    cases hstep
                    rfl
            | tool =>
                rw [hrole] at hstep
                simp only [pure, Except.pure] at hstep
                cases hstep
                rfl
          rw [ih acc2 res hrest h, h1]

/-- C9 counterexample: a caller-supplied empty `stopSequences` array is
truthy in JS, so the rendered body contains `stop_sequences` with an
empty value. -/
def c9options : CallOptions :=
  ⟨[⟨.user, .str "hi"⟩], none, none, none, none, some [], none, none⟩

/-- C9 counterexample theorem: the body rendered from `c9options`
contains `stop_sequences = []` even though the claim says no optional
field is ever present with an empty value. -/
theorem claim_C9_counterexample :
    Except.map (fun b => b.stop_sequences)
      (buildRequestBody parse0 strf0 "model-x" ⟨none⟩ c9options false) =
      .ok (some []) := rfl

/-- C9 amended: every optional field of the rendered body is present
only when the corresponding input was supplied — the numeric knobs and
`stop_sequences` are copied verbatim (so a supplied empty stop-sequence
list is kept), `tool_choice` is the converted supplied policy, `tools`
is absent unless a function tool was supplied and is never an empty
list, and `system` is never the empty string and is absent when the
prompt has no system message. -/
theorem claim_C9_optional_fields (parse : String → Option Json)
    (strf : Json → String) (modelId : String) (mo : ModelOptions)
    (opts : CallOptions) (isStreaming : Bool) (body : RequestBody)
    (h : buildRequestBody parse strf modelId mo opts isStreaming = .ok body) :
    body.temperature = opts.temperature ∧
    body.top_p = opts.topP ∧
    body.top_k = opts.topK ∧
    body.stop_sequences = opts.stopSequences ∧
    (isStreaming = false → body.stream = none) ∧
    (isStreaming = true → body.stream = some true) ∧
    body.tool_choice = opts.toolChoice.map convertToolChoice ∧
    (opts.tools = none → body.tools = none) ∧
    (∀ ts, body.tools = some ts → ts ≠ []) ∧
    body.system ≠ some "" ∧
    ((∀ m ∈ opts.prompt, m.role ≠ .system) → body.system = none) := by
  cases hcp : convertPrompt parse strf opts.prompt with
  | error e =>
      unfold buildRequestBody at h
      rw [hcp] at h
      simp [Bind.bind, Except.bind] at h
  | ok cp =>
      unfold buildRequestBody at h
      rw [hcp] at h
      simp only [Bind.bind, Except.bind, pure, Except.pure] at h
      cases h
      refine ⟨rfl, rfl, rfl, rfl, ?_, ?_, rfl, ?_, ?_, ?_, ?_⟩
      · intro hs; subst hs; rfl
      · intro hs; subst hs; rfl
      · intro ht; simp [ht]
      · intro ts hts
        cases htools : opts.tools with
        | none => simp [htools] at hts
        | some l =>
            rw [htools] at hts
            simp only [Option.map] at hts
            by_cases hlen :
                (l.filterMap (fun t => match t with
                  | V3Tool.function n d s => some (n, d, s)
                  | V3Tool.other => none)).length > 0
            · simp only [if_pos hlen] at hts
              by_cases hlen2 :
                  (convertTools (l.filterMap (fun t => match t with
                    | V3Tool.function n d s => some (n, d, s)
                    | V3Tool.other => none))).length > 0
              · simp only [if_pos hlen2] at hts
                cases hts
                exact List.ne_nil_of_length_pos hlen2
              · simp only [if_neg hlen2] at hts
                exact absurd hts (by simp)
            · simp only [if_neg hlen] at hts
              exact absurd hts (by simp)
      · cases hsys : cp.system with
        | none => simp
        | some s =>
            by_cases hs : s = ""
            · simp [hs]
            · simp [hs]
      · intro hnos
        unfold convertPrompt at hcp
        cases hloop : convertPromptLoop parse strf opts.prompt with
        | error e =>
            rw [hloop] at hcp
            simp [Bind.bind, Except.bind] at hcp
        | ok pr =>
            rw [hloop] at hcp
            simp only [Bind.bind, Except.bind, pure, Except.pure] at hcp
            have hsys : pr.1 = none :=
              foldlM_no_system parse strf opts.prompt (none, []) pr hnos hloop
            cases hcp
            simp [hsys]

/-- The concrete options for the C9 witness. -/
def c9optsW : CallOptions :=
  ⟨[⟨.user, .str "hi"⟩], none, some 1, none, none, none, none, none⟩

/-- The body rendered from the C9 witness options. -/
def c9bodyW : RequestBody :=
  ⟨"m", 4096, [⟨.user, .str "hi"⟩], none, none, some 1, none, none, none,
    none, none⟩

/-- Witness for C9's amended theorem at concrete options. -/
theorem claim_C9_witness :
    buildRequestBody parse0 strf0 "m" ⟨none⟩ c9optsW false = .ok c9bodyW ∧
    c9bodyW.temperature = c9optsW.temperature ∧
    c9bodyW.system = none :=
  ⟨rfl,
    (claim_C9_optional_fields parse0 strf0 "m" ⟨none⟩ c9optsW false c9bodyW rfl).1,
    (claim_C9_optional_fields parse0 strf0 "m" ⟨none⟩ c9optsW false c9bodyW
        rfl).2.2.2.2.2.2.2.2.2.2
      (by intro m hm; simp only [c9optsW, List.mem_singleton] at hm; subst hm; decide)⟩

/-- The merge loop, rephrased: merge the pending last message into the
rest of the list, combining while roles coincide. -/
def mergeInto (last : AnthropicMessage) :
    List AnthropicMessage → List AnthropicMessage
  | [] => [last]
  | m :: ms =>
      if last.role = m.role then
        mergeInto
          ⟨m.role, .blocks (normalizeContent last.content ++
            normalizeContent m.content)⟩ ms
      else last :: mergeInto m ms

/-- Claim-side decomposition: extend the current same-role run or start
a new one, producing the maximal runs of consecutive same-role
messages. -/
def splitRunsInto (run : List AnthropicMessage) (runRole : AnthropicRole) :
    List AnthropicMessage → List (List AnthropicMessage)
  | [] => [run]
  | m :: ms =>
      if runRole = m.role then splitRunsInto (run ++ [m]) runRole ms
      else run :: splitRunsInto [m] m.role ms

/-- Claim-side decomposition of a message list into its maximal runs of
consecutive same-role messages, in order. -/
def splitRuns : List AnthropicMessage → List (List AnthropicMessage)
  | [] => []
  | m :: ms => splitRunsInto [m] m.role ms

/-- Claim-side merged form of one run: a singleton run is untouched; a
longer run becomes one message of the run role whose content is the
concatenation of the run members' contents, each first normalized to a
block sequence. -/
def mergeRun : List AnthropicMessage → AnthropicMessage
  | [] => ⟨.user, .blocks []⟩
  | [m] => m
  | m :: r :: rest =>
      ⟨m.role,
        .blocks ((m :: r :: rest).flatMap (fun x => normalizeContent x.content))⟩

/-- Unfolding of `mergeInto` on a cons cell. -/
theorem mergeInto_cons (last m : AnthropicMessage) (ms : List AnthropicMessage) :
    mergeInto last (m :: ms) =
      if last.role = m.role then
        mergeInto
          ⟨m.role, .blocks (normalizeContent last.content ++
            normalizeContent m.content)⟩ ms
      else last :: mergeInto m ms := rfl

/-- The merge fold from a snoc seed runs `mergeInto` on the tail. -/
theorem foldl_mergeStep_append :
    ∀ (msgs init : List AnthropicMessage) (last : AnthropicMessage),
      List.foldl mergeStep (init ++ [last]) msgs = init ++ mergeInto last msgs := by
  intro msgs
  induction msgs with
  | nil => intro init last; simp [mergeInto]
  | cons m ms ih =>
      intro init last
      rw [List.foldl_cons]
      by_cases h : last.role = m.role
      · have hstep : mergeStep (init ++ [last]) m =
            init ++ [⟨m.role, .blocks (normalizeContent last.content ++
              normalizeContent m.content)⟩] := by
          unfold mergeStep
          rw [List.getLast?_concat]
          simp [h, List.dropLast_concat]
        rw [hstep, ih, mergeInto_cons, if_pos h]
      · have hstep : mergeStep (init ++ [last]) m = (init ++ [last]) ++ [m] := by
          unfold mergeStep
          rw [List.getLast?_concat]
          simp [h]
        rw [hstep, ih (init ++ [last]) m, mergeInto_cons, if_neg h]
        simp

/-- Evaluating `mergeConsecutiveMessages` on the empty list. -/
theorem mergeConsecutive_nil : mergeConsecutiveMessages [] = [] := rfl

/-- Lemma: `mergeConsecutiveMessages` is `mergeInto` seeded with the head. -/
theorem mergeConsecutive_cons (m : AnthropicMessage)
    (ms : List AnthropicMessage) :
    mergeConsecutiveMessages (m :: ms) = mergeInto m ms := by
  unfold mergeConsecutiveMessages
  rw [List.foldl_cons]
  have h0 : mergeStep [] m = [m] := rfl
  rw [h0]
  simpa using foldl_mergeStep_append ms [] m

/-- The head of a merged tail carries the pending message's role. -/
theorem mergeInto_head_role :
    ∀ (ms : List AnthropicMessage) (last : AnthropicMessage),
      (mergeInto last ms).head?.map (fun x => x.role) = some last.role := by
  intro ms
  induction ms with
  | nil => intro last; rfl
  | cons m ms ih =>
      intro last
      unfold mergeInto
      by_cases h : last.role = m.role
      · rw [if_pos h, ih]
        simp [h]
      · rw [if_neg h]
        rfl

/-- The merge loop output never has two adjacent equal roles. -/
theorem mergeInto_chain :
    ∀ (ms : List AnthropicMessage) (last : AnthropicMessage),
      List.Chain' (fun a b => a.role ≠ b.role) (mergeInto last ms) := by
  intro ms
  induction ms with
  | nil => intro last; simp [mergeInto]
  | cons m ms ih =>
      intro last
      unfold mergeInto
      by_cases h : last.role = m.role
      · rw [if_pos h]; exact ih _
      · rw [if_neg h]
        rw [List.chain'_cons']
        refine ⟨?_, ih m⟩
        intro y hy
        have hh := mergeInto_head_role ms m
        rw [Option.mem_def] at hy
        rw [hy] at hh
        simp at hh
        rw [hh]
        exact h

/-- The role of a merged run is the common run role. -/
theorem mergeRun_role :
    ∀ (run : List AnthropicMessage) (runRole : AnthropicRole), run ≠ [] →
      (∀ x ∈ run, x.role = runRole) → (mergeRun run).role = runRole := by
  intro run runRole hne hall
  match run, hne with
  | [m], _ => exact hall m (List.mem_cons_self m [])
  | m :: r :: rest, _ => exact hall m (List.mem_cons_self m (r :: rest))

/-- Normalizing a merged run's content flattens the run's normalized
contents. -/
theorem mergeRun_normalize :
    ∀ (run : List AnthropicMessage), run ≠ [] →
      normalizeContent (mergeRun run).content =
        run.flatMap (fun x => normalizeContent x.content) := by
  intro run hne
  match run, hne with
  | [m], _ => simp [mergeRun]
  | m :: r :: rest, _ => rfl

/-- Appending one message to a nonempty run merges into the long-run
form. -/
theorem mergeRun_append_single (r : AnthropicMessage)
    (rs : List AnthropicMessage) (m : AnthropicMessage) :
    mergeRun ((r :: rs) ++ [m]) =
      ⟨r.role,
        .blocks (((r :: rs) ++ [m]).flatMap (fun x => normalizeContent x.content))⟩ := by
  cases rs with
  | nil => rfl
  | cons r2 rs2 => rfl

/-- The merge loop computes the merged form of every maximal run. -/
theorem mergeInto_splitRuns :
    ∀ (ms run : List AnthropicMessage) (runRole : AnthropicRole), run ≠ [] →
      (∀ x ∈ run, x.role = runRole) →
      mergeInto (mergeRun run) ms = (splitRunsInto run runRole ms).map mergeRun := by
  intro ms
  induction ms with
  | nil =>
      intro run runRole hne hall
      simp [mergeInto, splitRunsInto]
  | cons m ms ih =>
      intro run runRole hne hall
      have hrole : (mergeRun run).role = runRole := mergeRun_role run runRole hne hall
      unfold mergeInto splitRunsInto
      by_cases h : runRole = m.role
      · have hc : (mergeRun run).role = m.role := by rw [hrole, h]
        rw [if_pos hc, if_pos h]
        have hmr : (⟨m.role, .blocks (normalizeContent (mergeRun run).content ++
            normalizeContent m.content)⟩ : AnthropicMessage) = mergeRun (run ++ [m]) := by
          cases run with
          | nil => exact absurd rfl hne
          | cons r rs =>
              rw [mergeRun_append_single]
              have hr : r.role = runRole := hall r (List.mem_cons_self r rs)
              have hnorm := mergeRun_normalize (r :: rs) (by simp)
              rw [hnorm, List.flatMap_append]
              simp [hr, h]
        rw [hmr]
        refine ih (run ++ [m]) runRole (by simp) ?_
        intro x hx
        rcases List.mem_append.mp hx with hx | hx
        · exact hall x hx
        · rw [List.mem_singleton] at hx
          subst hx
          exact h.symm
      · have hc : ¬ (mergeRun run).role = m.role := by rw [hrole]; exact h
        rw [if_neg hc, if_neg h]
        have hm := ih [m] m.role (by simp) (by simp)
        rw [show mergeRun [m] = m from rfl] at hm
        rw [List.map_cons, hm]

/-- The run decomposition loses no message. -/
theorem splitRunsInto_flatten :
    ∀ (ms run : List AnthropicMessage) (runRole : AnthropicRole),
      (splitRunsInto run runRole ms).flatten = run ++ ms := by
  intro ms
  induction ms with
  | nil => intro run runRole; simp [splitRunsInto]
  | cons m ms ih =>
      intro run runRole
      unfold splitRunsInto
      by_cases h : runRole = m.role
      · rw [if_pos h, ih]
        simp
      · rw [if_neg h]
        simp [ih]

/-- Lemma: `splitRuns` partitions the list: flattening it restores the input. -/
theorem splitRuns_flatten :
    ∀ (msgs : List AnthropicMessage), (splitRuns msgs).flatten = msgs := by
  intro msgs
  cases msgs with
  | nil => rfl
  | cons m ms =>
      unfold splitRuns
      rw [splitRunsInto_flatten]
      rfl

/-- C1: for every unified conversation accepted by the dispatch loop,
`convertPrompt` merges the raw message list; the merged list has no two
adjacent equal roles; it is exactly the run decomposition of the
pre-merge list with each run merged (a singleton run untouched, a longer
run concatenating the run's normalized contents in original order); and
the run decomposition flattens back to the pre-merge list. -/
theorem claim_C1_merge_invariant_lossless (parse : String → Option Json)
    (strf : Json → String) (prompt : List V3Message) (sys : Option String)
    (pre : List AnthropicMessage)
    (h : convertPromptLoop parse strf prompt = .ok (sys, pre)) :
    convertPrompt parse strf prompt = .ok ⟨sys, mergeConsecutiveMessages pre⟩ ∧
    List.Chain' (fun a b => a.role ≠ b.role) (mergeConsecutiveMessages pre) ∧
    mergeConsecutiveMessages pre = (splitRuns pre).map mergeRun ∧
    (splitRuns pre).flatten = pre := by
  refine ⟨?_, ?_, ?_, splitRuns_flatten pre⟩
  · unfold convertPrompt
    rw [h]
    rfl
  · cases pre with
    | nil => rw [mergeConsecutive_nil]; exact List.chain'_nil
    | cons m ms => rw [mergeConsecutive_cons]; exact mergeInto_chain ms m
  · cases pre with
    | nil => rfl
    | cons m ms =>
        rw [mergeConsecutive_cons]
        unfold splitRuns
        have hm := mergeInto_splitRuns ms [m] m.role (by simp) (by simp)
        rw [show mergeRun [m] = m from rfl] at hm
        exact hm

/-- Witness for C1 at a prompt with a same-role pair followed by an
assistant message. -/
theorem claim_C1_witness :
    convertPromptLoop parse0 strf0
      [⟨.user, .str "a"⟩, ⟨.user, .str "b"⟩, ⟨.assistant, .str "c"⟩] =
      .ok (none,
        [⟨AnthropicRole.user, .str "a"⟩, ⟨AnthropicRole.user, .str "b"⟩,
         ⟨AnthropicRole.assistant, .str "c"⟩]) ∧
    (convertPrompt parse0 strf0
      [⟨.user, .str "a"⟩, ⟨.user, .str "b"⟩, ⟨.assistant, .str "c"⟩] =
      .ok ⟨none, mergeConsecutiveMessages
        [⟨AnthropicRole.user, .str "a"⟩, ⟨AnthropicRole.user, .str "b"⟩,
         ⟨AnthropicRole.assistant, .str "c"⟩]⟩ ∧
    List.Chain' (fun a b => a.role ≠ b.role) (mergeConsecutiveMessages
        [⟨AnthropicRole.user, .str "a"⟩, ⟨AnthropicRole.user, .str "b"⟩,
         ⟨AnthropicRole.assistant, .str "c"⟩]) ∧
    mergeConsecutiveMessages
        [⟨AnthropicRole.user, .str "a"⟩, ⟨AnthropicRole.user, .str "b"⟩,
         ⟨AnthropicRole.assistant, .str "c"⟩] =
      (splitRuns [⟨AnthropicRole.user, .str "a"⟩, ⟨AnthropicRole.user, .str "b"⟩,
         ⟨AnthropicRole.assistant, .str "c"⟩]).map mergeRun ∧
    (splitRuns [⟨AnthropicRole.user, .str "a"⟩, ⟨AnthropicRole.user, .str "b"⟩,
         ⟨AnthropicRole.assistant, .str "c"⟩]).flatten =
      [⟨AnthropicRole.user, .str "a"⟩, ⟨AnthropicRole.user, .str "b"⟩,
         ⟨AnthropicRole.assistant, .str "c"⟩]) :=
  ⟨rfl,
    claim_C1_merge_invariant_lossless parse0 strf0
      [⟨.user, .str "a"⟩, ⟨.user, .str "b"⟩, ⟨.assistant, .str "c"⟩] none
      [⟨AnthropicRole.user, .str "a"⟩, ⟨AnthropicRole.user, .str "b"⟩,
       ⟨AnthropicRole.assistant, .str "c"⟩] rfl⟩

end AzureAnthropic
